import Mathlib

/-! luger: scrollback buffer and viewport of the log viewer (`main.go`)

A shallow embedding of `main.go`.

* Go `int` is the 64-bit signed integer: the fields `offset`, `width`, `height` and
  `len(m.logs)` are carried as `Int`, and every `+` and `-` of the source stores its
  result reduced to 64 bits (`wrapInt`, through `model.intOf`), as Go does.
* `[]string` is `List String`; `append` is `++ [s]`.
* A run-time panic (slice bounds out of range in `View`) is `none`.
* The Go standard library and the bubbletea / lipgloss packages are not part of the
  repository: the functions `readLogs` calls from them are the fields of `Lib`.
-/

namespace Luger

/-! ## Data model -/

/-- A value that `json.Unmarshal` stores into an `interface{}`: `nil`, `bool`,
`float64` (kept as the text of its literal), `string`, `[]interface{}` and
`map[string]interface{}`. -/
inductive JSONValue where
  | null
  | bool (b : Bool)
  | number (text : String)
  | string (s : String)
  | array (items : List JSONValue)
  | object (fields : List (String × JSONValue))

/-- The struct `LogEntry` (`main.go` lines 14-19). -/
structure LogEntry where
  Namespace : String
  Time : String
  Priority : String
  Payload : JSONValue

/-- The struct `model` (`main.go` lines 21-26). -/
structure model where
  logs : List String
  offset : Int
  width : Int
  height : Int
deriving DecidableEq, Repr

/-- The value `model{}` that `main` hands to the host: every field is its zero value. -/
def model.zero : model := { logs := [], offset := 0, width := 0, height := 0 }

/-- Commands (`bubbletea.Cmd`) that the program returns to the host: `readLogs` from
`Init`, `bubbletea.Quit` from `Update`. A `nil` command is `none : Option Cmd`. -/
inductive Cmd where
  | readLogs
  | Quit
deriving DecidableEq, Repr

/-- Messages (`bubbletea.Msg`) as the type switch of `Update` sees them:
`logMsg` (new data), `bubbletea.KeyMsg` (carried as the value of `msg.String()`),
`bubbletea.WindowSizeMsg` (resize), and `other` for a value of any other dynamic
type. -/
inductive Msg where
  | logMsg (s : String)
  | KeyMsg (key : String)
  | WindowSizeMsg (Width Height : Int)
  | other
deriving DecidableEq, Repr

/-- Go `len(m.logs)` as an `int`. -/
def model.len (m : model) : Int := (m.logs.length : Int)

/-! ## Go `int` -/

/-- The least value of Go `int` (64 bits), `math.MinInt64`. -/
def intMin : Int := -9223372036854775808

/-- The greatest value of Go `int` (64 bits), `math.MaxInt64`. -/
def intMax : Int := 9223372036854775807

/-- The integer is a value of Go `int`. -/
def isInt (x : Int) : Prop := intMin ≤ x ∧ x ≤ intMax

instance (x : Int) : Decidable (isInt x) := by
  unfold isInt; infer_instance

/-- Reduction to 64 bits in two's complement: what Go keeps of the exact result of
`+` and `-` on `int`. It is the identity on the values of `int`. -/
def wrapInt (x : Int) : Int :=
  (x + 9223372036854775808) % 18446744073709551616 - 9223372036854775808

/-- The record is a state the program can hold: `offset`, `width` and `height` are
values of `int` and the length of `logs` is at most `math.MaxInt64`. -/
def model.fits (m : model) : Prop :=
  isInt m.offset ∧ isInt m.width ∧ isInt m.height ∧ m.len ≤ intMax

instance (m : model) : Decidable m.fits := by
  unfold model.fits; infer_instance

/-- The `int` that an addition or subtraction of the source yields in state `m` when
its exact result is `x`: `x` reduced to 64 bits. A record that is not a state of
the program (a field outside `int`, a list longer than any slice) has no run of the
code to follow, and `x` is left as it is there. -/
def model.intOf (m : model) (x : Int) : Int :=
  if m.fits then wrapInt x else x

/-! ## `Init`, `Update`, `View` -/

/-- `func (m model) Init() bubbletea.Cmd` (`main.go` lines 30-32). -/
def Init (_m : model) : Option Cmd := some Cmd.readLogs

/-- `func (m model) Update(msg bubbletea.Msg) (bubbletea.Model, bubbletea.Cmd)`
(`main.go` lines 34-60). The differences `len(m.logs) - m.height` (lines 39, 51) and
the steps `m.offset--`, `m.offset++` are `int` operations. -/
def Update (m : model) : Msg → model × Option Cmd
  | Msg.logMsg s =>
    let m1 : model := { m with logs := m.logs ++ [s] }
    let m2 : model :=
      if m1.len > m1.height then { m1 with offset := m1.intOf (m1.len - m1.height) } else m1
    (m2, none)
  | Msg.KeyMsg key =>
    if key = "q" ∨ key = "ctrl+c" then
      (m, some Cmd.Quit)
    else if key = "up" then
      ((if m.offset > 0 then { m with offset := m.intOf (m.offset - 1) } else m), none)
    else if key = "down" then
      ((if m.offset < m.intOf (m.len - m.height) then
          { m with offset := m.intOf (m.offset + 1) } else m), none)
    else
      (m, none)
  | Msg.WindowSizeMsg w h => ({ m with width := w, height := h }, none)
  | Msg.other => (m, none)

/-- The loop body of `View`: `b.WriteString(log + "\n")` for each element in order,
starting from the empty builder. -/
def writeAll (blocks : List String) : String :=
  blocks.foldl (fun b log => b ++ (log ++ "\n")) ""

/-- `func (m model) View() string` (`main.go` lines 62-73). The slice expression
`m.logs[start:end]` panics unless `0 <= start <= end <= cap(m.logs)`; the clamp on
the line before makes `end <= len(m.logs)`, so the check left is `0 <= start <= end`.
`none` is that panic. The sum `m.offset + m.height` (line 65) is an `int` operation. -/
def View (m : model) : Option String :=
  let start := m.offset
  let end0 := m.intOf (m.offset + m.height)
  let end1 := if end0 > m.len then m.len else end0
  if 0 ≤ start ∧ start ≤ end1 then
    some (writeAll ((m.logs.take end1.toNat).drop start.toNat))
  else
    none

/-! ## `readLogs` and `priorityColor` -/

/-- The library functions `readLogs` and `priorityColor` call, none of them in the
repository:
`unmarshal line` is `json.Unmarshal([]byte(line), &entry)` on a zero `entry`
(`none` when it returns an error);
`marshalIndent v` is the text `json.MarshalIndent(v, "", "  ")` returns, its error
dropped as in the source;
`render c s` is `lipgloss.NewStyle().Foreground(lipgloss.Color(c)).Render(s)`;
`toLower` is `strings.ToLower`. -/
structure Lib where
  unmarshal : String → Option LogEntry
  marshalIndent : JSONValue → String
  render : String → String → String
  toLower : String → String

/-- `func priorityColor(p string) lipgloss.Color` (`main.go` lines 111-124); a
`lipgloss.Color` is its string. -/
def priorityColor (L : Lib) (p : String) : String :=
  let q := L.toLower p
  if q = "debug" then "8"
  else if q = "info" then "10"
  else if q = "warn" then "11"
  else if q = "error" then "9"
  else "7"

/-- How the scan of standard input stops once its lines are used up:
`scanner.Err()` is `nil` (end of stream) or an error. -/
inductive ScanEnd where
  | eof
  | err
deriving DecidableEq, Repr

/-- Standard input as the scanner delivers it: the lines `scanner.Text()` yields in
order, then how the scan stops. -/
structure Stdin where
  lines : List String
  ending : ScanEnd
deriving DecidableEq, Repr

/-- The lines 85-100 of `readLogs`: the payload text by the type switch on
`entry.Payload`, then the `Sprintf` with format `"%s | %s | %s\n%s"`. -/
def formatEntry (L : Lib) (entry : LogEntry) : String :=
  let payloadStr : String :=
    match entry.Payload with
    | JSONValue.string v => v
    | v => L.marshalIndent v
  L.render (priorityColor L entry.Priority) entry.Time
    ++ " | " ++ entry.Namespace ++ " | " ++ entry.Priority ++ "\n" ++ payloadStr

/-- The `for scanner.Scan()` loop of `readLogs` (`main.go` lines 77-102) over the
lines still to come: a line that fails to decode is skipped, the first one that
decodes is formatted and returned. The result is the message, if the loop returned
one, and the lines after the last one consumed. -/
def scanLoop (L : Lib) : List String → Option String × List String
  | [] => (none, [])
  | line :: rest =>
    match L.unmarshal line with
    | none => scanLoop L rest
    | some entry => (some (formatEntry L entry), rest)

/-- `func readLogs() bubbletea.Msg` (`main.go` lines 75-109) on the standard input
`s`: the message returned (`none` is Go `nil`), and with it the lines the loop did not
consume. A call makes its own `bufio.Scanner`, and what that scanner has read ahead
is lost to a later call: the second component is an upper bound of what a later call
could still read, not what the code leaves, and no statement below depends on it. -/
def readLogs (L : Lib) (s : Stdin) : Option Msg × Stdin :=
  match scanLoop L s.lines with
  | (some logLine, rest) => (some (Msg.logMsg logLine), { s with lines := rest })
  | (none, rest) =>
    match s.ending with
    | ScanEnd.err => (some (Msg.logMsg "error reading stdin"), { s with lines := rest })
    | ScanEnd.eof => (none, { s with lines := rest })

/-! ## The host -/

/-- Events applied one after the other: the state after `Update` has handled each
message of `evs` in turn, starting from `m`. -/
def runEvents (m : model) (evs : List Msg) : model :=
  evs.foldl (fun st e => (Update st e).1) m

/-- Modelled from the spec: the command loop of the host (`bubbletea.Program`, a
package outside the repository): run the pending command, pass the message it produces to `Update`,
go on with the command `Update` returns, until no command remains. `bubbletea.Quit`
produces the quit message, on which the host stops; a `nil` message is not
delivered. `fuel` bounds the number of commands run. -/
def hostLoop (L : Lib) : Nat → model → Option Cmd → Stdin → model
  | _, m, none, _ => m
  | 0, m, some _, _ => m
  | _ + 1, m, some Cmd.Quit, _ => m
  | fuel + 1, m, some Cmd.readLogs, s =>
    match readLogs L s with
    | (none, _) => m
    | (some msg, s1) => hostLoop L fuel (Update m msg).1 (Update m msg).2 s1

/-- The whole run on standard input `s`: `main` starts the host on `model{}`, the
host runs `Init`'s command and loops. Each command run but the last consumes a
line, so `s.lines.length + 2` commands are enough. -/
def hostRun (L : Lib) (s : Stdin) : model :=
  hostLoop L (s.lines.length + 2) model.zero (Init model.zero) s

/-- The blocks the specification expects in the buffer after a run: one per line
that decodes, in input order. -/
def decodedBlocks (L : Lib) (lines : List String) : List String :=
  lines.filterMap (fun line => (L.unmarshal line).map (formatEntry L))

/-- The block `readLogs` emits when the scan stops with no line left to decode:
the notice `"error reading stdin"` on an error, nothing at end of stream. -/
def endNotice : ScanEnd → List String
  | ScanEnd.err => ["error reading stdin"]
  | ScanEnd.eof => []

/-! ## Predicates of the specification -/

/-- The offset clamp of the specification:
`0 <= offset <= max(0, len(blocks) - viewportHeight)`. -/
def OffsetClamp (m : model) : Prop :=
  0 ≤ m.offset ∧ m.offset ≤ max 0 (m.len - m.height)

instance (m : model) : Decidable (OffsetClamp m) := by
  unfold OffsetClamp; infer_instance

/-- The resize events among the messages carry a height `>= 0`; any other message
passes. -/
def nonnegResize : Msg → Prop
  | Msg.WindowSizeMsg _ h => 0 ≤ h
  | _ => True

instance nonnegResize.decide : (e : Msg) → Decidable (nonnegResize e)
  | Msg.WindowSizeMsg _ h => by unfold nonnegResize; infer_instance
  | Msg.logMsg _ => isTrue trivial
  | Msg.KeyMsg _ => isTrue trivial
  | Msg.other => isTrue trivial

/-- The message is a resize event (`bubbletea.WindowSizeMsg`). -/
def isResize : Msg → Bool
  | Msg.WindowSizeMsg _ _ => true
  | _ => false

/-- The bounds under which the slice expression of `View` is legal:
`0 <= offset <= len(logs)`, with a height that is not negative. -/
def InBounds (m : model) : Prop :=
  0 ≤ m.offset ∧ m.offset ≤ m.len ∧ 0 ≤ m.height

/-! ## `encoding/json` and `strings` on the values of this program -/

/-- The declaration `var entry LogEntry`: every field is its zero value, the empty
string for the three strings and `nil` for the payload. -/
def LogEntry.zero : LogEntry :=
  { Namespace := "", Time := "", Priority := "", Payload := JSONValue.null }

/-- The lines 85-92 of `readLogs`: the type switch on `entry.Payload`. A string is
taken as it is, any other value (`nil` included) goes through `json.MarshalIndent`. -/
def payloadStr (L : Lib) : JSONValue → String
  | JSONValue.string v => v
  | v => L.marshalIndent v

/-- `json.MarshalIndent(v, "", "  ")` as far as the package documentation is used
here: "a nil interface value encodes as the null JSON value", the text `null`; the
text of every other value is `rest v`. -/
def marshalIndentWith (rest : JSONValue → String) : JSONValue → String
  | JSONValue.null => "null"
  | v => rest v

/-- Case-insensitive match of one character `k` of an object key with the character
`n` of a lower-case ASCII field tag, as `encoding/json` folds keys: the same
character, its upper-case letter, and the two non-ASCII characters that fold to an
ASCII letter, U+017F (to `s`) and U+212A (to `k`). -/
def foldsTo (n k : Char) : Bool :=
  k = n || k = n.toUpper || (n = 's' && k = Char.ofNat 0x17F) ||
    (n = 'k' && k = Char.ofNat 0x212A)

/-- Whether the object key `key` selects the struct field tagged `name`
(`json:"name"`): `encoding/json` takes the field whose tag equals the key and,
failing that, the one that equals it case-insensitively. No two tags of `LogEntry`
are equal case-insensitively, so the two steps amount to one folded comparison. -/
def keySelects (name key : String) : Bool :=
  name.data.length = key.data.length &&
    (List.zip name.data key.data).all (fun nk => foldsTo nk.1 nk.2)

mutual

/-- Every number inside the value fits a `float64`, by the test `floatOk` on the
text of the literal (`strconv.ParseFloat` without range error): decoding into an
`interface{}` fails on a number that does not. -/
def numbersOk (floatOk : String → Bool) : JSONValue → Bool
  | JSONValue.number text => floatOk text
  | JSONValue.array items => numbersOkList floatOk items
  | JSONValue.object fields => numbersOkFields floatOk fields
  | _ => true

/-- The same test over the elements of an array. -/
def numbersOkList (floatOk : String → Bool) : List JSONValue → Bool
  | [] => true
  | v :: vs => numbersOk floatOk v && numbersOkList floatOk vs

/-- The same test over the members of an object. -/
def numbersOkFields (floatOk : String → Bool) : List (String × JSONValue) → Bool
  | [] => true
  | kv :: kvs => numbersOk floatOk kv.2 && numbersOkFields floatOk kvs

end

/-- Decoding the JSON value `v` into a Go `string` field: a string is stored, `null`
leaves the field as it is, any other value is an `UnmarshalTypeError` (`none`). -/
def decodeString (old : String) : JSONValue → Option String
  | JSONValue.string s => some s
  | JSONValue.null => some old
  | _ => none

/-- One member `"key": v` of the top-level object decoded into `entry`: the key
selects one of the four fields or none (the member is then skipped); a string field
takes `decodeString`, the `interface{}` field `Payload` takes any value whose
numbers fit. `none` is an error saved by the decoder. -/
def decodeField (floatOk : String → Bool) (entry : LogEntry) (kv : String × JSONValue) :
    Option LogEntry :=
  if keySelects "namespace" kv.1 then
    (decodeString entry.Namespace kv.2).map (fun s => { entry with Namespace := s })
  else if keySelects "time" kv.1 then
    (decodeString entry.Time kv.2).map (fun s => { entry with Time := s })
  else if keySelects "priority" kv.1 then
    (decodeString entry.Priority kv.2).map (fun s => { entry with Priority := s })
  else if keySelects "payload" kv.1 then
    if numbersOk floatOk kv.2 then some { entry with Payload := kv.2 } else none
  else
    some entry

/-- The members of the top-level object decoded in order into `entry`; an error on
any member makes `json.Unmarshal` return an error. -/
def decodeFields (floatOk : String → Bool) : List (String × JSONValue) → LogEntry →
    Option LogEntry
  | [], entry => some entry
  | kv :: kvs, entry =>
    match decodeField floatOk entry kv with
    | none => none
    | some entry1 => decodeFields floatOk kvs entry1

/-- What `json.Unmarshal(data, &entry)` does with the top-level value of valid JSON
for the struct `LogEntry` (`main.go` lines 14-19 and 79-80), by the rules of
`encoding/json`: `null` has no effect on a struct and is no error; an object is
decoded member by member; a boolean, number, string or array cannot be stored into
a struct and is an `UnmarshalTypeError` (`none`). -/
def decodeEntry (floatOk : String → Bool) : JSONValue → Option LogEntry
  | JSONValue.null => some LogEntry.zero
  | JSONValue.object fields => decodeFields floatOk fields LogEntry.zero
  | _ => none

/-- `json.Unmarshal([]byte(line), &entry)` from its two stages: `parse line` is the
syntax check and the value read (`none` for malformed JSON, a `SyntaxError`), then
the value is decoded into the zero `entry`. -/
def unmarshalJSON (parse : String → Option JSONValue) (floatOk : String → Bool)
    (line : String) : Option LogEntry :=
  (parse line).bind (decodeEntry floatOk)

/-- A member of the top-level object on which decoding fails: a key that selects
`namespace`, `time` or `priority` with a value that is neither a string nor `null`,
or a key that selects `payload` with a value holding a number that does not fit. -/
def badField (floatOk : String → Bool) (kv : String × JSONValue) : Prop :=
  ((keySelects "namespace" kv.1 = true ∨ keySelects "time" kv.1 = true ∨
      keySelects "priority" kv.1 = true) ∧
    (∀ s, kv.2 ≠ JSONValue.string s) ∧ kv.2 ≠ JSONValue.null) ∨
  (keySelects "payload" kv.1 = true ∧ numbersOk floatOk kv.2 = false)

/-- ASCII lower-casing, what `strings.ToLower` does on ASCII text. -/
def asciiLower (s : String) : String :=
  String.mk (s.data.map Char.toLower)

/-- A library for the examples: no line decodes, `json.MarshalIndent` renders `nil`
as `null` and is not used on anything else, the style renders the text plain (as
lipgloss does without a colour profile), lower-casing is the ASCII one. -/
def plainLib : Lib :=
  { unmarshal := fun _ => none
    marshalIndent := marshalIndentWith (fun _ => "")
    render := fun _ s => s
    toLower := asciiLower }

/-- The top-level values on which decoding into `LogEntry` fails: a boolean, a
number, a string, an array, and an object with a member that fails; not `null`. -/
def failsToDecode (floatOk : String → Bool) : JSONValue → Prop
  | JSONValue.null => False
  | JSONValue.object fields => ∃ kv ∈ fields, badField floatOk kv
  | _ => True

/-- The first line of a text: its characters up to the first line break. -/
def firstLine (s : String) : String :=
  String.mk (s.data.takeWhile (fun c => c != '\n'))

/-! ## Helper lemmas -/

theorem len_append (m : model) (s : String) :
    ({ m with logs := m.logs ++ [s] } : model).len = m.len + 1 := by
  simp [model.len]

theorem len_nonneg (m : model) : 0 ≤ m.len := by
  simp [model.len]

/-- An exact result inside `int` is stored as it is. -/
theorem intOf_eq (m : model) (x : Int) (h : m.fits → isInt x) : m.intOf x = x := by
  unfold model.intOf
  split_ifs with hf
  · have hx := h hf
    simp only [isInt, intMin, intMax] at hx
    unfold wrapInt
    omega
  · rfl

/-- The fields of a state of the program are within `int`. -/
theorem fits_bounds (m : model) (hf : m.fits) :
    -9223372036854775808 ≤ m.offset ∧ m.offset ≤ 9223372036854775807 ∧
    -9223372036854775808 ≤ m.height ∧ m.height ≤ 9223372036854775807 ∧
    0 ≤ m.len ∧ m.len ≤ 9223372036854775807 := by
  have hl := len_nonneg m
  simp only [model.fits, isInt, intMin, intMax] at hf
  omega

theorem Update_logMsg_raw (m : model) (s : String) :
    (Update m (Msg.logMsg s)).1 =
      { m with
        logs := m.logs ++ [s]
        offset := if m.len + 1 > m.height
          then ({ m with logs := m.logs ++ [s] } : model).intOf (m.len + 1 - m.height)
          else m.offset } := by
  simp only [Update, len_append]
  split_ifs <;> rfl

/-- With a height that is not negative the difference in the `logMsg` case is
exact. -/
theorem Update_logMsg_fst (m : model) (s : String) (hh : 0 ≤ m.height) :
    (Update m (Msg.logMsg s)).1 =
      { m with
        logs := m.logs ++ [s]
        offset := if m.len + 1 > m.height then m.len + 1 - m.height else m.offset } := by
  rw [Update_logMsg_raw]
  split_ifs with hgt
  · rw [intOf_eq]
    intro hf
    have hb := fits_bounds _ hf
    rw [len_append] at hb
    simp only [isInt, intMin, intMax]
    simp only at hb
    omega
  · rfl

/-- The step `m.offset--` is taken from an offset above 0 and is exact. -/
theorem Update_up_fst (m : model) :
    (Update m (Msg.KeyMsg "up")).1 =
      { m with offset := if m.offset > 0 then m.offset - 1 else m.offset } := by
  have h1 : ¬ ("up" = "q" ∨ "up" = "ctrl+c") := by decide
  simp only [Update, h1, if_false, if_true]
  split_ifs with hgt
  · rw [intOf_eq]
    intro hf
    have hb := fits_bounds _ hf
    simp only [isInt, intMin, intMax]
    omega
  · rfl

theorem Update_down_raw (m : model) :
    (Update m (Msg.KeyMsg "down")).1 =
      { m with
        offset := if m.offset < m.intOf (m.len - m.height) then m.intOf (m.offset + 1)
          else m.offset } := by
  have h1 : ¬ ("down" = "q" ∨ "down" = "ctrl+c") := by decide
  have h2 : ¬ ("down" = "up") := by decide
  simp only [Update, h1, h2, if_false, if_true]
  split_ifs <;> rfl

/-- With a height that is not negative the difference and the step `m.offset++` in
the `down` case are exact. -/
theorem Update_down_fst (m : model) (hh : 0 ≤ m.height) :
    (Update m (Msg.KeyMsg "down")).1 =
      { m with
        offset := if m.offset < m.len - m.height then m.offset + 1 else m.offset } := by
  rw [Update_down_raw]
  have hd : m.intOf (m.len - m.height) = m.len - m.height := by
    rw [intOf_eq]
    intro hf
    have hb := fits_bounds _ hf
    simp only [isInt, intMin, intMax]
    omega
  rw [hd]
  split_ifs with hlt
  · rw [intOf_eq]
    intro hf
    have hb := fits_bounds _ hf
    simp only [isInt, intMin, intMax]
    omega
  · rfl

/-- A key other than `up` and `down` leaves the state as it is. -/
theorem Update_key_fst (m : model) (k : String) (hu : k ≠ "up") (hd : k ≠ "down") :
    (Update m (Msg.KeyMsg k)).1 = m := by
  simp only [Update, hu, hd, if_false]
  split_ifs <;> rfl

/-- `Update` changes the height on a resize only, and the logs on new data only. -/
theorem Update_frame (m : model) (e : Msg) :
    (isResize e = false → (Update m e).1.height = m.height) ∧
    (∃ added : List String, (Update m e).1.logs = m.logs ++ added ∧
      added.length = (match e with
        | Msg.logMsg _ => 1
        | _ => 0)) := by
  cases e with
  | logMsg s =>
    rw [Update_logMsg_raw]
    exact ⟨fun _ => rfl, [s], rfl, rfl⟩
  | KeyMsg k =>
    by_cases hu : k = "up"
    · subst hu
      rw [Update_up_fst]
      exact ⟨fun _ => rfl, [], by simp, rfl⟩
    · by_cases hd : k = "down"
      · subst hd
        rw [Update_down_raw]
        exact ⟨fun _ => rfl, [], by simp, rfl⟩
      · rw [Update_key_fst m k hu hd]
        exact ⟨fun _ => rfl, [], by simp, rfl⟩
  | WindowSizeMsg w h => exact ⟨fun he => by simp [isResize] at he, [], by simp [Update], rfl⟩
  | other => exact ⟨fun _ => rfl, [], by simp [Update], rfl⟩

/-- With a height that is not negative, one step of `Update` on a message that is
not a resize keeps the offset clamp. -/
theorem OffsetClamp_step (m : model) (e : Msg) (hh : 0 ≤ m.height) (hm : OffsetClamp m)
    (he : isResize e = false) :
    OffsetClamp (Update m e).1 := by
  unfold OffsetClamp at hm ⊢
  cases e with
  | logMsg s =>
    rw [Update_logMsg_fst m s hh]
    simp only [model.len, List.length_append, List.length_singleton, Nat.cast_add,
      Nat.cast_one] at hm ⊢
    split_ifs <;> omega
  | KeyMsg k =>
    by_cases hu : k = "up"
    · subst hu
      rw [Update_up_fst]
      simp only [model.len] at hm ⊢
      split_ifs <;> omega
    · by_cases hd : k = "down"
      · subst hd
        rw [Update_down_fst m hh]
        simp only [model.len] at hm ⊢
        split_ifs <;> omega
      · rw [Update_key_fst m k hu hd]
        exact hm
  | WindowSizeMsg w h => simp [isResize] at he
  | other => exact hm

theorem runEvents_cons (m : model) (e : Msg) (es : List Msg) :
    runEvents m (e :: es) = runEvents (Update m e).1 es := rfl

/-! ## C1: the offset clamp over event sequences -/

/-- C1 (code defect): from `model{}`, one new-data event followed by a resize to
height 24 leaves one block, height 24 and offset 1: the offset is above
`max(0, len(logs) - height) = 0` and is not 0 although `len(logs) <= height`, and
`View` then paints nothing although the one block would fit. The `WindowSizeMsg`
case of `Update` stores the new height and does not bring the offset back into the
bound that the `logMsg`, `up` and `down` cases keep. -/
theorem C1_clamp_broken_by_resize :
    (runEvents model.zero [Msg.logMsg "a", Msg.WindowSizeMsg 80 24]).offset = 1 ∧
    (runEvents model.zero [Msg.logMsg "a", Msg.WindowSizeMsg 80 24]).len = 1 ∧
    (runEvents model.zero [Msg.logMsg "a", Msg.WindowSizeMsg 80 24]).height = 24 ∧
    ¬ OffsetClamp (runEvents model.zero [Msg.logMsg "a", Msg.WindowSizeMsg 80 24]) ∧
    View (runEvents model.zero [Msg.logMsg "a", Msg.WindowSizeMsg 80 24]) = some "" := by
  decide

/-! ## C2: the run of the host over an input stream -/

theorem scanLoop_fst (L : Lib) (lines : List String) :
    (scanLoop L lines).1 = (decodedBlocks L lines).head? := by
  induction lines with
  | nil => rfl
  | cons line rest ih =>
    unfold scanLoop decodedBlocks
    cases h : L.unmarshal line with
    | none => simpa [List.filterMap_cons, h, decodedBlocks] using ih
    | some entry => simp [List.filterMap_cons, h]

theorem readLogs_fst (L : Lib) (lines : List String) (fin : ScanEnd) :
    (readLogs L { lines := lines, ending := fin }).1 =
      ((decodedBlocks L lines ++ endNotice fin).head?).map Msg.logMsg := by
  have h := scanLoop_fst L lines
  unfold readLogs
  cases hd : decodedBlocks L lines with
  | nil =>
    rw [hd] at h
    cases hs : scanLoop L lines with
    | mk a rest =>
      rw [hs] at h
      simp only [List.head?_nil] at h
      subst h
      cases fin <;> rfl
  | cons b bs =>
    rw [hd] at h
    cases hs : scanLoop L lines with
    | mk a rest =>
      rw [hs] at h
      simp only [List.head?_cons] at h
      subst h
      cases fin <;> rfl

/-- C2 (code defect): whatever the input stream, the run ends with at most one
block in the buffer: the block of the first line that decodes (or the error notice,
when no line decodes and the scan stops on an error). The `logMsg` case of `Update`
returns no command, so `readLogs` is never run again and the lines after the first
decoded one are never read; the run with any positive number `k + 1` of command
steps allowed ends in the same state. -/
theorem C2_hostRun_keeps_first_block_only (L : Lib) (lines : List String) (fin : ScanEnd)
    (k : Nat) :
    (hostRun L { lines := lines, ending := fin }).logs =
      (decodedBlocks L lines ++ endNotice fin).take 1 ∧
    hostLoop L (k + 1) model.zero (Init model.zero) { lines := lines, ending := fin } =
      hostRun L { lines := lines, ending := fin } := by
  have h := readLogs_fst L lines fin
  generalize decodedBlocks L lines ++ endNotice fin = bs at h ⊢
  unfold hostRun Init
  cases hr : readLogs L { lines := lines, ending := fin } with
  | mk msg s1 =>
    rw [hr] at h
    simp only at h
    cases bs with
    | nil =>
      simp only [List.head?_nil, Option.map_none'] at h
      subst h
      simp [hostLoop, hr, model.zero]
    | cons b rest =>
      simp only [List.head?_cons, Option.map_some'] at h
      subst h
      simp only [hostLoop, hr, Update, List.take_succ_cons, List.take_zero,
        model.zero, List.nil_append, and_self]
      refine ⟨?_, trivial⟩
      split_ifs <;> rfl

/-! ## C3: what `View` renders -/

theorem writeAll_eq_join (blocks : List String) :
    writeAll blocks = String.join (blocks.map (fun b => b ++ "\n")) := by
  simp [writeAll, String.join, List.foldl_map]

/-- When `offset + height` is within `int`, `View` takes the slice with the exact
bounds `offset` and `min(offset + height, len(logs))`. -/
theorem View_exact (m : model) (h : m.fits → isInt (m.offset + m.height)) :
    View m =
      if 0 ≤ m.offset ∧ m.offset ≤ min (m.offset + m.height) m.len then
        some (writeAll ((m.logs.take (min (m.offset + m.height) m.len).toNat).drop
          m.offset.toNat))
      else none := by
  unfold View
  simp only [intOf_eq m _ h]
  have he : (if m.offset + m.height > m.len then m.len else m.offset + m.height) =
      min (m.offset + m.height) m.len := by
    split_ifs <;> omega
  rw [he]

/-- C3, as stated, fails: with two blocks, offset 1 and height `math.MaxInt64` the
state has `height >= 0` and `0 <= offset <= len(logs)`, but `offset + height`
overflows `int`, `end` is negative and the slice `logs[1:end]` panics, so `View`
returns nothing. -/
theorem C3_View_panics_on_overflow :
    (0 : Int) ≤ 9223372036854775807 ∧
    (0 : Int) ≤ 1 ∧
    (1 : Int) ≤
      ({ logs := ["a", "b"], offset := 1, width := 80, height := 9223372036854775807 } :
        model).len ∧
    View { logs := ["a", "b"], offset := 1, width := 80, height := 9223372036854775807 } =
      none := by
  decide

/-- C3, amended: for every state with `height >= 0`, `0 <= offset <= len(logs)` and
`offset + height <= math.MaxInt64` (the sum does not overflow `int`), `View`
returns (without panic) the concatenation of `block ++ "\n"` over the list `blocks`
of the `min(offset + height, len(logs)) - offset` elements of `logs` from index
`offset` on, in order, nothing else added or cut by the width; with height 2, five
blocks and offset 2 that is the blocks at indices 2 and 3. -/
theorem C3_View_renders_window (m : model) (hh : 0 ≤ m.height) (ho : 0 ≤ m.offset)
    (hl : m.offset ≤ m.len) (hfit : m.offset + m.height ≤ intMax) :
    (∃ blocks : List String,
      View m = some (String.join (blocks.map (fun b => b ++ "\n"))) ∧
      (blocks.length : Int) = min (m.offset + m.height) m.len - m.offset ∧
      ∀ i : Nat, i < blocks.length → blocks[i]? = m.logs[m.offset.toNat + i]?) ∧
    (∀ (b0 b1 b2 b3 b4 : String) (w : Int),
      View { logs := [b0, b1, b2, b3, b4], offset := 2, width := w, height := 2 } =
        some (b2 ++ "\n" ++ b3 ++ "\n")) := by
  constructor
  · refine ⟨(m.logs.take (min (m.offset + m.height) m.len).toNat).drop m.offset.toNat,
      ?_, ?_, ?_⟩
    · rw [View_exact m (fun _ => by
        simp only [isInt, intMin, intMax] at hfit ⊢
        omega)]
      rw [if_pos ⟨ho, by omega⟩, writeAll_eq_join]
    · simp only [model.len] at hl ⊢
      simp only [List.length_drop, List.length_take]
      omega
    · intro i hi
      simp only [model.len] at hl hi ⊢
      simp only [List.length_drop, List.length_take] at hi
      rw [List.getElem?_drop, List.getElem?_take_of_lt (by omega)]
  · intro b0 b1 b2 b3 b4 w
    rw [View_exact _ (fun _ => by
      simp only [isInt, intMin, intMax]
      omega)]
    simp [writeAll, model.len, String.append_assoc]

/-- C3 witness: height 2, five blocks, offset 2. -/
theorem C3_View_renders_window_witness :
    ∃ blocks : List String,
      View { logs := ["b0", "b1", "b2", "b3", "b4"], offset := 2, width := 80, height := 2 } =
        some (String.join (blocks.map (fun b => b ++ "\n"))) ∧
      (blocks.length : Int) = min ((2 : Int) + 2) 5 - 2 ∧
      ∀ i : Nat, i < blocks.length →
        blocks[i]? = ["b0", "b1", "b2", "b3", "b4"][(2 : Int).toNat + i]? :=
  (C3_View_renders_window
    { logs := ["b0", "b1", "b2", "b3", "b4"], offset := 2, width := 80, height := 2 }
    (by decide) (by decide) (by decide) (by decide)).1

/-! ## C4, C5: new data and the follow rule -/

/-- C4, as stated, fails: with an empty buffer and height `math.MinInt64`, a
new-data event makes the length 1, which exceeds the height, and the code stores
`1 - height` reduced to 64 bits, -9223372036854775807, not the difference
`new length - height = 9223372036854775809`. -/
theorem C4_offset_wraps_at_min_height :
    (Update { logs := [], offset := 0, width := 80, height := -9223372036854775808 }
      (Msg.logMsg "a")).1.len >
      ({ logs := [], offset := 0, width := 80, height := -9223372036854775808 } : model).height ∧
    (Update { logs := [], offset := 0, width := 80, height := -9223372036854775808 }
      (Msg.logMsg "a")).1.offset = -9223372036854775807 ∧
    (Update { logs := [], offset := 0, width := 80, height := -9223372036854775808 }
      (Msg.logMsg "a")).1.offset ≠
      (Update { logs := [], offset := 0, width := 80, height := -9223372036854775808 }
        (Msg.logMsg "a")).1.len - (-9223372036854775808) := by
  decide

/-- C4, amended: for every state and every new-data event carrying block `b`,
`Update` returns (with no command) a state whose logs are the old logs with `b`
appended at the end and whose width and height are unchanged; when the new length
exceeds the height and `new length - height` is at most `math.MaxInt64` (always so
for a height `>= 0`), the new offset is `new length - height`, whatever the old
offset was; when the new length does not exceed the height the offset is
unchanged. -/
theorem C4_Update_logMsg (m : model) (b : String) :
    (Update m (Msg.logMsg b)).1.logs = m.logs ++ [b] ∧
    (Update m (Msg.logMsg b)).1.width = m.width ∧
    (Update m (Msg.logMsg b)).1.height = m.height ∧
    (Update m (Msg.logMsg b)).1.len = m.len + 1 ∧
    ((Update m (Msg.logMsg b)).1.len > m.height →
      (Update m (Msg.logMsg b)).1.len - m.height ≤ intMax →
      (Update m (Msg.logMsg b)).1.offset = (Update m (Msg.logMsg b)).1.len - m.height) ∧
    ((Update m (Msg.logMsg b)).1.len > m.height → 0 ≤ m.height →
      (Update m (Msg.logMsg b)).1.offset = (Update m (Msg.logMsg b)).1.len - m.height) ∧
    (¬ (Update m (Msg.logMsg b)).1.len > m.height →
      (Update m (Msg.logMsg b)).1.offset = m.offset) ∧
    (Update m (Msg.logMsg b)).2 = none := by
  have hlen : (Update m (Msg.logMsg b)).1.len = m.len + 1 := by
    rw [Update_logMsg_raw]
    simp [model.len]
  refine ⟨by rw [Update_logMsg_raw], by rw [Update_logMsg_raw], by rw [Update_logMsg_raw],
    hlen, ?_, ?_, ?_, by simp [Update]⟩
  · rw [hlen]
    intro hgt hle
    rw [Update_logMsg_raw]
    simp only [if_pos hgt]
    rw [intOf_eq]
    intro hf
    simp only [isInt, intMin, intMax] at hle ⊢
    omega
  · rw [hlen]
    intro hgt hh
    rw [Update_logMsg_fst m b hh]
    simp only [if_pos hgt]
  · rw [hlen]
    intro hgt
    rw [Update_logMsg_raw]
    simp only [if_neg hgt]

/-- C4 witness: three blocks, height 2, the user scrolled up to offset 0. -/
theorem C4_Update_logMsg_witness :
    (Update { logs := ["a", "b", "c"], offset := 0, width := 80, height := 2 }
      (Msg.logMsg "d")).1.len > 2 ∧
    (Update { logs := ["a", "b", "c"], offset := 0, width := 80, height := 2 }
      (Msg.logMsg "d")).1.len - 2 ≤ intMax ∧
    (Update { logs := ["a", "b", "c"], offset := 0, width := 80, height := 2 }
      (Msg.logMsg "d")).1.offset =
      (Update { logs := ["a", "b", "c"], offset := 0, width := 80, height := 2 }
        (Msg.logMsg "d")).1.len - 2 :=
  ⟨by decide, by decide,
    (C4_Update_logMsg { logs := ["a", "b", "c"], offset := 0, width := 80, height := 2 }
      "d").2.2.2.2.1 (by decide) (by decide)⟩

/-- New-data events only, at a fixed height `H >= 0`: when the offset is
`max(0, len - H)` before, it is so after, and the length has grown by the number of
events. -/
theorem follow_runEvents (H : Int) (hH : 0 ≤ H) (blocks : List String) :
    ∀ m : model, m.height = H → m.offset = max 0 (m.len - H) →
      (runEvents m (blocks.map Msg.logMsg)).height = H ∧
      (runEvents m (blocks.map Msg.logMsg)).len = m.len + blocks.length ∧
      (runEvents m (blocks.map Msg.logMsg)).offset =
        max 0 ((runEvents m (blocks.map Msg.logMsg)).len - H) := by
  induction blocks with
  | nil =>
    intro m hH ho
    simp [runEvents, hH, ho]
  | cons b bs ih =>
    intro m hm ho
    rw [List.map_cons, runEvents_cons]
    have hh : 0 ≤ m.height := by rw [hm]; exact hH
    have h3 : (Update m (Msg.logMsg b)).1.height = m.height := by
      rw [Update_logMsg_fst m b hh]
    have h4 : (Update m (Msg.logMsg b)).1.offset =
        if m.len + 1 > m.height then m.len + 1 - m.height else m.offset := by
      rw [Update_logMsg_fst m b hh]
    have h5 : (Update m (Msg.logMsg b)).1.len = m.len + 1 := by
      rw [Update_logMsg_fst m b hh]
      simp [model.len]
    have hlen : 0 ≤ m.len := len_nonneg m
    have key := ih (Update m (Msg.logMsg b)).1 (by rw [h3, hm]) (by
      rw [h4, h5, hm, ho]
      split_ifs <;> omega)
    refine ⟨key.1, ?_, key.2.2⟩
    have hk := key.2.1
    simp only [List.length_cons, Nat.cast_add, Nat.cast_one]
    omega

/-- C5: from `model{}`, one resize event to height `H >= 0` followed by `n`
new-data events (the blocks of `blocks`, `n` their number) and no key event gives
`offset == max(0, n - H)`; so `n = H + 5` gives offset 5 and `n <= H` gives
offset 0. -/
theorem C5_follow_after_resize (w H : Int) (blocks : List String) (hH : 0 ≤ H) :
    (runEvents model.zero (Msg.WindowSizeMsg w H :: blocks.map Msg.logMsg)).offset =
      max 0 ((blocks.length : Int) - H) ∧
    ((blocks.length : Int) = H + 5 →
      (runEvents model.zero (Msg.WindowSizeMsg w H :: blocks.map Msg.logMsg)).offset = 5) ∧
    ((blocks.length : Int) ≤ H →
      (runEvents model.zero (Msg.WindowSizeMsg w H :: blocks.map Msg.logMsg)).offset = 0) := by
  rw [runEvents_cons]
  have h := follow_runEvents H hH blocks (Update model.zero (Msg.WindowSizeMsg w H)).1 rfl (by
    simp only [Update, model.zero, model.len, List.length_nil, Nat.cast_zero]
    omega)
  have h0 : (Update model.zero (Msg.WindowSizeMsg w H)).1.len = 0 := rfl
  rw [h.2.2, h.2.1, h0]
  refine ⟨by simp, ?_, ?_⟩ <;> intro hn <;> omega

/-- C5 witness: height 3 and eight blocks (offset 5). -/
theorem C5_follow_after_resize_witness :
    (0 : Int) ≤ 3 ∧
    (runEvents model.zero (Msg.WindowSizeMsg 80 3 ::
      ["a", "b", "c", "d", "e", "f", "g", "h"].map Msg.logMsg)).offset = 5 :=
  ⟨by decide,
    (C5_follow_after_resize 80 3 ["a", "b", "c", "d", "e", "f", "g", "h"] (by decide)).2.1
      (by decide)⟩

/-! ## C6: the buffer only grows at its end -/

/-- C6: for every state and every event handled by `Update`, the logs after the
event are the logs before it followed by a (possibly empty) list of new blocks, so
nothing is removed or reordered; the length grows by exactly one on a new-data
event and by zero on every other event (key, resize, any other message). -/
theorem C6_logs_append_only (m : model) (e : Msg) :
    (∃ added : List String, (Update m e).1.logs = m.logs ++ added) ∧
    (Update m e).1.logs.length =
      m.logs.length + (match e with
        | Msg.logMsg _ => 1
        | _ => 0) := by
  obtain ⟨added, h1, h2⟩ := (Update_frame m e).2
  refine ⟨⟨added, h1⟩, ?_⟩
  rw [h1, List.length_append, h2]

/-! ## C7, C8: scrolling by the arrow keys -/

/-- C7: for every state with `offset >= 0`, an up-key event yields (with no
command) the state with `offset' == max(0, offset - 1)` and the same logs, width
and height. -/
theorem C7_Update_up (m : model) (ho : 0 ≤ m.offset) :
    Update m (Msg.KeyMsg "up") = ({ m with offset := max 0 (m.offset - 1) }, none) := by
  have h2 : (Update m (Msg.KeyMsg "up")).2 = none := by
    have h1 : ¬ ("up" = "q" ∨ "up" = "ctrl+c") := by decide
    simp only [Update, h1, if_false, if_true]
  have hmax : max 0 (m.offset - 1) = if m.offset > 0 then m.offset - 1 else m.offset := by
    split_ifs <;> omega
  rw [hmax, ← Update_up_fst m, ← h2]

/-- C7 witness: offset 3 becomes 2. -/
theorem C7_Update_up_witness :
    (0 : Int) ≤ 3 ∧
    Update { logs := ["a", "b", "c", "d"], offset := 3, width := 80, height := 1 }
        (Msg.KeyMsg "up") =
      ({ logs := ["a", "b", "c", "d"], offset := max 0 (3 - 1), width := 80, height := 1 },
        none) :=
  ⟨by decide,
    C7_Update_up { logs := ["a", "b", "c", "d"], offset := 3, width := 80, height := 1 }
      (by decide)⟩

/-- C8: for every state with `height >= 0` and
`0 <= offset <= max(0, len(logs) - height)`, a down-key event yields (with no
command) the state with `offset' == min(offset + 1, max(0, len(logs) - height))`
and the same logs, width and height. -/
theorem C8_Update_down (m : model) (hh : 0 ≤ m.height) (ho : 0 ≤ m.offset)
    (hc : m.offset ≤ max 0 (m.len - m.height)) :
    Update m (Msg.KeyMsg "down") =
      ({ m with offset := min (m.offset + 1) (max 0 (m.len - m.height)) }, none) := by
  have h2 : (Update m (Msg.KeyMsg "down")).2 = none := by
    have h1 : ¬ ("down" = "q" ∨ "down" = "ctrl+c") := by decide
    have h3 : ¬ ("down" = "up") := by decide
    simp only [Update, h1, h3, if_false, if_true]
  have hmin : min (m.offset + 1) (max 0 (m.len - m.height)) =
      if m.offset < m.len - m.height then m.offset + 1 else m.offset := by
    split_ifs <;> omega
  rw [hmin, ← Update_down_fst m hh, ← h2]

/-- C8 witness: four blocks, height 1, offset 2 becomes 3. -/
theorem C8_Update_down_witness :
    (0 : Int) ≤ 1 ∧ (0 : Int) ≤ 2 ∧ (2 : Int) ≤ max 0 (4 - 1) ∧
    Update { logs := ["a", "b", "c", "d"], offset := 2, width := 80, height := 1 }
        (Msg.KeyMsg "down") =
      ({ logs := ["a", "b", "c", "d"], offset := min (2 + 1) (max 0 (4 - 1)), width := 80,
          height := 1 }, none) :=
  ⟨by decide, by decide, by decide,
    C8_Update_down { logs := ["a", "b", "c", "d"], offset := 2, width := 80, height := 1 }
      (by decide) (by decide) (by decide)⟩

/-! ## C9, C10: resize and the other keys -/

/-- C9: for every state and every resize event `(w, h)`, `Update` returns (with no
command) a state with `width == w` and `height == h` whose logs and offset are
those before the event. -/
theorem C9_Update_resize (m : model) (w h : Int) :
    (Update m (Msg.WindowSizeMsg w h)).1.width = w ∧
    (Update m (Msg.WindowSizeMsg w h)).1.height = h ∧
    (Update m (Msg.WindowSizeMsg w h)).1.logs = m.logs ∧
    (Update m (Msg.WindowSizeMsg w h)).1.offset = m.offset ∧
    (Update m (Msg.WindowSizeMsg w h)).2 = none :=
  ⟨rfl, rfl, rfl, rfl, rfl⟩

/-- C10: for every state and every key press other than `up` and `down`, `Update`
returns the state unchanged; the command it returns is `Quit` exactly when the key
is `q` or `ctrl+c`, and no command for any other key. -/
theorem C10_Update_other_key (m : model) (k : String) (hu : k ≠ "up") (hd : k ≠ "down") :
    (Update m (Msg.KeyMsg k)).1 = m ∧
    ((Update m (Msg.KeyMsg k)).2 = some Cmd.Quit ↔ (k = "q" ∨ k = "ctrl+c")) ∧
    (¬ (k = "q" ∨ k = "ctrl+c") → (Update m (Msg.KeyMsg k)).2 = none) := by
  refine ⟨Update_key_fst m k hu hd, ?_, ?_⟩
  · simp only [Update, hu, hd, if_false]
    split_ifs with hq
    · simp [hq]
    · simp [hq]
  · intro hq
    simp only [Update, hu, hd, hq, if_false]

/-- C10 witness: the key `q` in a scrolled state. -/
theorem C10_Update_other_key_witness :
    "q" ≠ "up" ∧ "q" ≠ "down" ∧
    (Update { logs := ["a", "b"], offset := 1, width := 80, height := 1 } (Msg.KeyMsg "q")).1 =
      { logs := ["a", "b"], offset := 1, width := 80, height := 1 } ∧
    (Update { logs := ["a", "b"], offset := 1, width := 80, height := 1 } (Msg.KeyMsg "q")).2 =
      some Cmd.Quit :=
  ⟨by decide, by decide,
    (C10_Update_other_key { logs := ["a", "b"], offset := 1, width := 80, height := 1 } "q"
      (by decide) (by decide)).1,
    (C10_Update_other_key { logs := ["a", "b"], offset := 1, width := 80, height := 1 } "q"
      (by decide) (by decide)).2.1.mpr (Or.inl rfl)⟩

/-! ## C11, C12, C18: when `View` is in bounds, and when it is empty -/

/-- One step of `Update` keeps `0 <= offset <= len(logs)` and `height >= 0`, a
resize included when its height is not negative. -/
theorem InBounds_step (m : model) (e : Msg) (hm : InBounds m) (he : nonnegResize e) :
    InBounds (Update m e).1 := by
  unfold InBounds at hm ⊢
  cases e with
  | logMsg s =>
    rw [Update_logMsg_fst m s hm.2.2]
    simp only [model.len, List.length_append, List.length_singleton, Nat.cast_add,
      Nat.cast_one] at hm ⊢
    split_ifs <;> omega
  | KeyMsg k =>
    by_cases hu : k = "up"
    · subst hu
      rw [Update_up_fst]
      simp only [model.len] at hm ⊢
      split_ifs <;> omega
    · by_cases hd : k = "down"
      · subst hd
        rw [Update_down_fst m hm.2.2]
        simp only [model.len] at hm ⊢
        split_ifs <;> omega
      · rw [Update_key_fst m k hu hd]
        exact hm
  | WindowSizeMsg w h =>
    simp only [nonnegResize] at he
    simp only [Update, model.len] at hm ⊢
    omega
  | other => exact hm

theorem InBounds_runEvents (evs : List Msg) :
    ∀ m : model, InBounds m → (∀ e ∈ evs, nonnegResize e) → InBounds (runEvents m evs) := by
  induction evs with
  | nil => intro m hm _; exact hm
  | cons e es ih =>
    intro m hm hnn
    rw [runEvents_cons]
    exact ih _ (InBounds_step m e hm (hnn e (List.mem_cons_self e es)))
      (fun x hx => hnn x (List.mem_cons_of_mem e hx))

/-- In bounds and without overflow of `offset + height`, `View` does not panic. -/
theorem View_isSome_of_InBounds (m : model) (hm : InBounds m)
    (hfit : m.offset + m.height ≤ intMax) : ∃ s, View m = some s := by
  unfold InBounds at hm
  rw [View_exact m (fun _ => by
    simp only [isInt, intMin, intMax] at hfit ⊢
    omega)]
  exact ⟨_, if_pos ⟨hm.1, by omega⟩⟩

/-- In bounds, `View` is the empty string when there is no block or no row. -/
theorem View_empty_of_InBounds (m : model) (hm : InBounds m)
    (h : m.logs = [] ∨ m.height ≤ 0) : View m = some "" := by
  unfold InBounds at hm
  have hsum : m.fits → isInt (m.offset + m.height) := by
    intro hf
    have hb := fits_bounds m hf
    simp only [isInt, intMin, intMax]
    rcases h with h | h
    · have h0 : m.len = 0 := by simp [model.len, h]
      omega
    · omega
  rw [View_exact m hsum, if_pos ⟨hm.1, by omega⟩]
  congr 1
  have hnil : List.drop m.offset.toNat
      (List.take (min (m.offset + m.height) m.len).toNat m.logs) = [] := by
    rcases h with h | h
    · simp [h]
    · apply List.drop_eq_nil_of_le
      rw [List.length_take]
      omega
  rw [hnil]
  rfl

/-- Without a resize event the height stays what it was. -/
theorem height_runEvents_of_no_resize (evs : List Msg) :
    ∀ m : model, (∀ e ∈ evs, isResize e = false) → (runEvents m evs).height = m.height := by
  induction evs with
  | nil => intro m _; rfl
  | cons e es ih =>
    intro m hno
    rw [runEvents_cons, ih _ (fun x hx => hno x (List.mem_cons_of_mem e hx))]
    exact (Update_frame m e).1 (hno e (List.mem_cons_self e es))

theorem nonnegResize_of_not_isResize (e : Msg) (h : isResize e = false) : nonnegResize e := by
  cases e with
  | WindowSizeMsg w h0 => simp [isResize] at h
  | logMsg s => trivial
  | KeyMsg k => trivial
  | other => trivial

theorem InBounds_zero : InBounds model.zero := by
  unfold InBounds model.zero model.len
  simp

/-- C11, as stated, fails: a resize event with height -1 on `model{}` gives a
reachable state with no block and height -1 in which `View` takes the slice
`logs[0:-1]` and panics instead of returning the empty string; and after the
events resize to -1, down-key, resize to 5 the buffer is empty, the offset is 1 and
`View` panics on `logs[1:0]`. -/
theorem C11_View_panics_after_negative_height :
    (runEvents model.zero [Msg.WindowSizeMsg 80 (-1)]).logs = [] ∧
    (runEvents model.zero [Msg.WindowSizeMsg 80 (-1)]).height ≤ 0 ∧
    View (runEvents model.zero [Msg.WindowSizeMsg 80 (-1)]) = none ∧
    (runEvents model.zero
      [Msg.WindowSizeMsg 80 (-1), Msg.KeyMsg "down", Msg.WindowSizeMsg 80 5]).logs = [] ∧
    View (runEvents model.zero
      [Msg.WindowSizeMsg 80 (-1), Msg.KeyMsg "down", Msg.WindowSizeMsg 80 5]) = none := by
  decide

/-- C11, amended: for every state reachable from `model{}` by events whose resize
heights are all `>= 0`, `View` returns the empty string whenever `logs` is empty or
`height <= 0` (which is then `height == 0`). -/
theorem C11_View_empty (evs : List Msg) (hnn : ∀ e ∈ evs, nonnegResize e)
    (h : (runEvents model.zero evs).logs = [] ∨ (runEvents model.zero evs).height ≤ 0) :
    View (runEvents model.zero evs) = some "" :=
  View_empty_of_InBounds _ (InBounds_runEvents evs model.zero InBounds_zero hnn) h

/-- C11 witness: three blocks, a scroll up, then a resize to height 0. -/
theorem C11_View_empty_witness :
    (∀ e ∈ [Msg.logMsg "a", Msg.logMsg "b", Msg.logMsg "c", Msg.KeyMsg "up",
      Msg.WindowSizeMsg 80 0], nonnegResize e) ∧
    View (runEvents model.zero [Msg.logMsg "a", Msg.logMsg "b", Msg.logMsg "c",
      Msg.KeyMsg "up", Msg.WindowSizeMsg 80 0]) = some "" :=
  ⟨by decide, C11_View_empty _ (by decide) (by decide)⟩

/-- C12: for every state reached from `model{}` by events none of which is a resize
(new-data and key events, in any number), the height is 0 and `View` returns the
empty string. -/
theorem C12_View_empty_before_resize (evs : List Msg)
    (hno : ∀ e ∈ evs, isResize e = false) :
    (runEvents model.zero evs).height = 0 ∧ View (runEvents model.zero evs) = some "" := by
  have hh : (runEvents model.zero evs).height = 0 :=
    height_runEvents_of_no_resize evs model.zero hno
  refine ⟨hh, View_empty_of_InBounds _ ?_ (Or.inr (le_of_eq hh))⟩
  exact InBounds_runEvents evs model.zero InBounds_zero
    (fun e he => nonnegResize_of_not_isResize e (hno e he))

/-- C12 witness: three blocks and some keys, no resize. -/
theorem C12_View_empty_before_resize_witness :
    (∀ e ∈ [Msg.logMsg "a", Msg.logMsg "b", Msg.KeyMsg "up", Msg.logMsg "c",
      Msg.KeyMsg "down", Msg.KeyMsg "x"], isResize e = false) ∧
    (runEvents model.zero [Msg.logMsg "a", Msg.logMsg "b", Msg.KeyMsg "up", Msg.logMsg "c",
      Msg.KeyMsg "down", Msg.KeyMsg "x"]).height = 0 ∧
    View (runEvents model.zero [Msg.logMsg "a", Msg.logMsg "b", Msg.KeyMsg "up",
      Msg.logMsg "c", Msg.KeyMsg "down", Msg.KeyMsg "x"]) = some "" :=
  ⟨by decide, C12_View_empty_before_resize _ (by decide)⟩

/-- C18, as stated, fails: after two new-data events and a resize to height
`math.MaxInt64` (a resize height `>= 0`) the offset is 2 and `0 <= offset <=
len(logs)` holds, but `offset + height` overflows `int`, `end` is negative and the
slice taken by `View` panics. -/
theorem C18_View_panics_on_overflow :
    (∀ e ∈ [Msg.logMsg "a", Msg.logMsg "b", Msg.WindowSizeMsg 80 9223372036854775807],
      nonnegResize e) ∧
    (runEvents model.zero
      [Msg.logMsg "a", Msg.logMsg "b", Msg.WindowSizeMsg 80 9223372036854775807]).offset = 2 ∧
    View (runEvents model.zero
      [Msg.logMsg "a", Msg.logMsg "b", Msg.WindowSizeMsg 80 9223372036854775807]) = none := by
  decide

/-- C18, amended: for every state reachable from `model{}` by events whose resize
heights are all `>= 0`, `0 <= offset <= len(logs)` holds; and when `offset + height`
is at most `math.MaxInt64` (the sum in `View` does not overflow `int`), the slice
`logs[offset : min(offset + height, len(logs))]` is within bounds and `View`
returns a string, so it does not panic. -/
theorem C18_View_in_bounds (evs : List Msg) (hnn : ∀ e ∈ evs, nonnegResize e) :
    0 ≤ (runEvents model.zero evs).offset ∧
    (runEvents model.zero evs).offset ≤ (runEvents model.zero evs).len ∧
    ((runEvents model.zero evs).offset + (runEvents model.zero evs).height ≤ intMax →
      (runEvents model.zero evs).offset ≤
        min ((runEvents model.zero evs).offset + (runEvents model.zero evs).height)
          (runEvents model.zero evs).len ∧
      ∃ s, View (runEvents model.zero evs) = some s) := by
  have hb := InBounds_runEvents evs model.zero InBounds_zero hnn
  refine ⟨hb.1, hb.2.1, fun hfit => ⟨?_, View_isSome_of_InBounds _ hb hfit⟩⟩
  unfold InBounds at hb
  omega

/-- C18 witness: blocks, a resize to height 2, scrolling, a resize to height 9. -/
theorem C18_View_in_bounds_witness :
    (∀ e ∈ [Msg.logMsg "a", Msg.logMsg "b", Msg.logMsg "c", Msg.WindowSizeMsg 80 2,
      Msg.KeyMsg "up", Msg.logMsg "d", Msg.WindowSizeMsg 80 9], nonnegResize e) ∧
    (runEvents model.zero [Msg.logMsg "a", Msg.logMsg "b", Msg.logMsg "c",
      Msg.WindowSizeMsg 80 2, Msg.KeyMsg "up", Msg.logMsg "d",
      Msg.WindowSizeMsg 80 9]).offset +
      (runEvents model.zero [Msg.logMsg "a", Msg.logMsg "b", Msg.logMsg "c",
        Msg.WindowSizeMsg 80 2, Msg.KeyMsg "up", Msg.logMsg "d",
        Msg.WindowSizeMsg 80 9]).height ≤ intMax ∧
    ∃ s, View (runEvents model.zero [Msg.logMsg "a", Msg.logMsg "b", Msg.logMsg "c",
      Msg.WindowSizeMsg 80 2, Msg.KeyMsg "up", Msg.logMsg "d", Msg.WindowSizeMsg 80 9]) =
        some s :=
  ⟨by decide, by decide, ((C18_View_in_bounds _ (by decide)).2.2 (by decide)).2⟩

/-! ## C19, C20: the clamp under scrolling -/

/-- C19: for every state with `height >= 0` that satisfies
`0 <= offset <= max(0, len(logs) - height)`, the state `Update` returns for a
new-data, up-key or down-key event (for any message that is not a resize)
satisfies it again. -/
theorem C19_clamp_kept_without_resize (m : model) (e : Msg) (hh : 0 ≤ m.height)
    (hm : OffsetClamp m) (he : isResize e = false) :
    OffsetClamp (Update m e).1 :=
  OffsetClamp_step m e hh hm he

/-- C19 witness: a new-data event in a state scrolled to the bottom. -/
theorem C19_clamp_kept_without_resize_witness :
    (0 : Int) ≤ 2 ∧
    OffsetClamp { logs := ["a", "b", "c"], offset := 1, width := 80, height := 2 } ∧
    OffsetClamp (Update { logs := ["a", "b", "c"], offset := 1, width := 80, height := 2 }
      (Msg.logMsg "d")).1 :=
  ⟨by decide, by decide,
    C19_clamp_kept_without_resize
      { logs := ["a", "b", "c"], offset := 1, width := 80, height := 2 } (Msg.logMsg "d")
      (by decide) (by decide) rfl⟩

/-- C20, as stated, fails in its second half: with one block, offset 5 and height
`math.MinInt64` the state has `0 <= offset < len(logs) - height`, but in the code
`len(logs) - height` overflows to a negative `int`, the down key is refused, and
the up key then leaves offset 4, not the original state. -/
theorem C20_down_up_wraps_at_min_height :
    (0 : Int) ≤ 5 ∧
    (5 : Int) <
      ({ logs := ["a"], offset := 5, width := 80, height := -9223372036854775808 } :
        model).len - (-9223372036854775808) ∧
    (Update (Update
      { logs := ["a"], offset := 5, width := 80, height := -9223372036854775808 }
      (Msg.KeyMsg "down")).1 (Msg.KeyMsg "up")).1 =
      { logs := ["a"], offset := 4, width := 80, height := -9223372036854775808 } ∧
    (Update (Update
      { logs := ["a"], offset := 5, width := 80, height := -9223372036854775808 }
      (Msg.KeyMsg "down")).1 (Msg.KeyMsg "up")).1 ≠
      { logs := ["a"], offset := 5, width := 80, height := -9223372036854775808 } := by
  decide

/-- C20, amended: for every state with `height >= 0` and
`0 < offset <= max(0, len(logs) - height)`, an up-key event followed by a down-key
event returns the original state; and for every state with `height >= 0` and
`0 <= offset < len(logs) - height`, a down-key event followed by an up-key event
returns the original state. -/
theorem C20_scroll_reversible (m : model) :
    (0 ≤ m.height → 0 < m.offset → m.offset ≤ max 0 (m.len - m.height) →
      (Update (Update m (Msg.KeyMsg "up")).1 (Msg.KeyMsg "down")).1 = m) ∧
    (0 ≤ m.height → 0 ≤ m.offset → m.offset < m.len - m.height →
      (Update (Update m (Msg.KeyMsg "down")).1 (Msg.KeyMsg "up")).1 = m) := by
  constructor
  · intro hh h1 h2
    rw [Update_up_fst, Update_down_fst _ (by simpa using hh)]
    simp only [model.len] at h2 ⊢
    rw [if_pos h1, if_pos (by omega)]
    cases m
    simp
  · intro hh h1 h2
    rw [Update_down_fst m hh, Update_up_fst]
    simp only [model.len] at h2 ⊢
    rw [if_pos h2, if_pos (by omega)]
    cases m
    simp

/-- C20 witness: four blocks, height 1, offset 2, both ways round. -/
theorem C20_scroll_reversible_witness :
    (Update (Update { logs := ["a", "b", "c", "d"], offset := 2, width := 80, height := 1 }
      (Msg.KeyMsg "up")).1 (Msg.KeyMsg "down")).1 =
      { logs := ["a", "b", "c", "d"], offset := 2, width := 80, height := 1 } ∧
    (Update (Update { logs := ["a", "b", "c", "d"], offset := 2, width := 80, height := 1 }
      (Msg.KeyMsg "down")).1 (Msg.KeyMsg "up")).1 =
      { logs := ["a", "b", "c", "d"], offset := 2, width := 80, height := 1 } :=
  ⟨(C20_scroll_reversible
      { logs := ["a", "b", "c", "d"], offset := 2, width := 80, height := 1 }).1
      (by decide) (by decide) (by decide),
    (C20_scroll_reversible
      { logs := ["a", "b", "c", "d"], offset := 2, width := 80, height := 1 }).2
      (by decide) (by decide) (by decide)⟩

/-! ## C13, C14: the formatted block -/

/-- The block is the header line, a line break, and the payload text. -/
theorem formatEntry_eq (L : Lib) (entry : LogEntry) :
    formatEntry L entry =
      L.render (priorityColor L entry.Priority) entry.Time ++ " | " ++ entry.Namespace ++
        " | " ++ entry.Priority ++ "\n" ++ payloadStr L entry.Payload := by
  unfold formatEntry payloadStr
  cases entry.Payload <;> rfl

theorem firstLine_append_break (header rest : String) (h : '\n' ∉ header.data) :
    firstLine (header ++ "\n" ++ rest) = header := by
  unfold firstLine
  have hd : (header ++ "\n" ++ rest).data = header.data ++ ('\n' :: rest.data) := by
    simp [String.data_append]
  rw [hd, List.takeWhile_append_of_pos]
  · simp
  · intro c hc
    have : c ≠ '\n' := fun hcn => h (hcn ▸ hc)
    simpa using this

/-- C13, as stated, fails: for the record with namespace `a`, line break, `b`
(a valid JSON string), time `t`, priority `p` and payload `hello`, the block is
`t | a`, `b | p`, `hello` on three lines: its first line is `t | a`, which does not
hold the priority, so namespace and priority are not on a single header line. -/
theorem C13_header_split_by_line_break :
    formatEntry plainLib
      { Namespace := "a\nb", Time := "t", Priority := "p", Payload := JSONValue.string "hello" } =
      "t | a\nb | p\nhello" ∧
    firstLine (formatEntry plainLib
      { Namespace := "a\nb", Time := "t", Priority := "p",
        Payload := JSONValue.string "hello" }) = "t | a" ∧
    ¬ ∃ a b, firstLine (formatEntry plainLib
      { Namespace := "a\nb", Time := "t", Priority := "p",
        Payload := JSONValue.string "hello" }) = a ++ "p" ++ b := by
  have h1 : firstLine (formatEntry plainLib
      { Namespace := "a\nb", Time := "t", Priority := "p",
        Payload := JSONValue.string "hello" }) = "t | a" := by decide
  refine ⟨by decide, h1, ?_⟩
  rintro ⟨a, b, h⟩
  rw [h1] at h
  have hp : 'p' ∈ ("t | a" : String).data := by
    rw [h]
    simp [String.data_append]
  exact absurd hp (by decide)

/-- C13, amended: for every decoded record whose payload is the JSON string `s`,
the formatted block equals `style(time) + " | " + namespace + " | " + priority +
"\n" + s` with `style` the rendering of the timestamp in the colour of the
priority; so the block contains the namespace and the priority verbatim and ends
with `s` as it is; and when the rendered timestamp, the namespace and the priority
hold no line break, the first line of the block is the header
`style(time) | namespace | priority`. -/
theorem C13_formatEntry_string_payload (L : Lib) (ns t p s : String) :
    formatEntry L { Namespace := ns, Time := t, Priority := p, Payload := JSONValue.string s } =
      L.render (priorityColor L p) t ++ " | " ++ ns ++ " | " ++ p ++ "\n" ++ s ∧
    (∃ header, formatEntry L
        { Namespace := ns, Time := t, Priority := p, Payload := JSONValue.string s } =
      header ++ s) ∧
    (∃ a b, formatEntry L
        { Namespace := ns, Time := t, Priority := p, Payload := JSONValue.string s } =
      a ++ ns ++ b) ∧
    (∃ a b, formatEntry L
        { Namespace := ns, Time := t, Priority := p, Payload := JSONValue.string s } =
      a ++ p ++ b) ∧
    ('\n' ∉ (L.render (priorityColor L p) t).data → '\n' ∉ ns.data → '\n' ∉ p.data →
      firstLine (formatEntry L
        { Namespace := ns, Time := t, Priority := p, Payload := JSONValue.string s }) =
      L.render (priorityColor L p) t ++ " | " ++ ns ++ " | " ++ p) := by
  have h : formatEntry L
      { Namespace := ns, Time := t, Priority := p, Payload := JSONValue.string s } =
      L.render (priorityColor L p) t ++ " | " ++ ns ++ " | " ++ p ++ "\n" ++ s := rfl
  refine ⟨h, ⟨_, h⟩, ⟨L.render (priorityColor L p) t ++ " | ", " | " ++ p ++ "\n" ++ s, ?_⟩,
    ⟨L.render (priorityColor L p) t ++ " | " ++ ns ++ " | ", "\n" ++ s, ?_⟩, ?_⟩
  · rw [h]
    simp only [String.append_assoc]
  · rw [h]
    simp only [String.append_assoc]
  · intro hr hn hp
    rw [h]
    apply firstLine_append_break
    simp only [String.data_append, List.mem_append, not_or]
    exact ⟨⟨⟨⟨hr, by decide⟩, hn⟩, by decide⟩, hp⟩

/-- C13 witness: namespace `svc`, time `t1`, priority `info`, payload `hello`, with
the plain style. -/
theorem C13_formatEntry_string_payload_witness :
    '\n' ∉ (plainLib.render (priorityColor plainLib "info") "t1").data ∧
    '\n' ∉ ("svc" : String).data ∧ '\n' ∉ ("info" : String).data ∧
    firstLine (formatEntry plainLib
      { Namespace := "svc", Time := "t1", Priority := "info",
        Payload := JSONValue.string "hello" }) =
      plainLib.render (priorityColor plainLib "info") "t1" ++ " | " ++ "svc" ++ " | " ++ "info" :=
  ⟨by decide, by decide, by decide,
    (C13_formatEntry_string_payload plainLib "svc" "t1" "info" "hello").2.2.2.2
      (by decide) (by decide) (by decide)⟩

/-- C14, as stated, fails: the object with namespace `svc`, time `t1`, priority
`info` and no payload member decodes to a record with payload `nil`, and the payload
part of its block is the text `null`, not the empty string. -/
theorem C14_missing_payload_prints_null :
    decodeEntry (fun _ => true)
      (JSONValue.object [("namespace", JSONValue.string "svc"),
        ("time", JSONValue.string "t1"), ("priority", JSONValue.string "info")]) =
      some { Namespace := "svc", Time := "t1", Priority := "info", Payload := JSONValue.null } ∧
    payloadStr plainLib JSONValue.null = "null" ∧
    payloadStr plainLib JSONValue.null ≠ "" ∧
    formatEntry plainLib
      { Namespace := "svc", Time := "t1", Priority := "info", Payload := JSONValue.null } =
      "t1 | svc | info\nnull" :=
  ⟨rfl, rfl, by decide, rfl⟩

/-- C14, amended: for every decoded record whose payload is `nil` (the payload
member is missing from the input object), the payload part of the formatted block is
the text `json.MarshalIndent` gives for `nil`, `null`; the missing string fields
namespace, time and priority are displayed as empty strings. -/
theorem C14_nil_payload_block (L : Lib) (rest : JSONValue → String) (ns t p : String) :
    payloadStr { L with marshalIndent := marshalIndentWith rest } JSONValue.null = "null" ∧
    formatEntry { L with marshalIndent := marshalIndentWith rest }
        { Namespace := ns, Time := t, Priority := p, Payload := JSONValue.null } =
      L.render (priorityColor L p) t ++ " | " ++ ns ++ " | " ++ p ++ "\n" ++ "null" ∧
    formatEntry { L with marshalIndent := marshalIndentWith rest } LogEntry.zero =
      L.render (priorityColor L "") "" ++ " | " ++ "" ++ " | " ++ "" ++ "\n" ++ "null" :=
  ⟨rfl, rfl, rfl⟩

/-! ## C15: the colour of a priority -/

theorem Char_toLower_idem (c : Char) : c.toLower.toLower = c.toLower := by
  simp only [Char.toLower]
  split_ifs with h1 h2
  · exfalso
    generalize c.toNat = n at h1 h2
    obtain ⟨ha, hb⟩ := h1
    interval_cases n <;> exact absurd h2 (by decide)
  · rfl
  · rfl

theorem asciiLower_idem (s : String) : asciiLower (asciiLower s) = asciiLower s := by
  have h : Char.toLower ∘ Char.toLower = Char.toLower := funext Char_toLower_idem
  simp [asciiLower, List.map_map, h]

/-- C15: with a lower-casing that is idempotent (as `strings.ToLower` is),
`priorityColor(p) == priorityColor(lowercase(p))` for every string `p`; and
`priorityColor(p)` is `"8"` when `lowercase(p)` is `"debug"`, `"10"` for `"info"`,
`"11"` for `"warn"`, `"9"` for `"error"`, and `"7"` for every other string, the
empty one included. -/
theorem C15_priorityColor_table (L : Lib)
    (hidem : ∀ s, L.toLower (L.toLower s) = L.toLower s) (p : String) :
    priorityColor L p = priorityColor L (L.toLower p) ∧
    (L.toLower p = "debug" → priorityColor L p = "8") ∧
    (L.toLower p = "info" → priorityColor L p = "10") ∧
    (L.toLower p = "warn" → priorityColor L p = "11") ∧
    (L.toLower p = "error" → priorityColor L p = "9") ∧
    (L.toLower p ≠ "debug" → L.toLower p ≠ "info" → L.toLower p ≠ "warn" →
      L.toLower p ≠ "error" → priorityColor L p = "7") ∧
    (L.toLower p = "" → priorityColor L p = "7") := by
  refine ⟨?_, ?_, ?_, ?_, ?_, ?_, ?_⟩
  · simp only [priorityColor, hidem]
  · intro h
    simp [priorityColor, h]
  · intro h
    simp [priorityColor, h]
  · intro h
    simp [priorityColor, h]
  · intro h
    simp [priorityColor, h]
  · intro h1 h2 h3 h4
    simp [priorityColor, h1, h2, h3, h4]
  · intro h
    simp [priorityColor, h]

/-- C15 witness: the priority `INFO` under ASCII lower-casing. -/
theorem C15_priorityColor_table_witness :
    priorityColor plainLib "INFO" = priorityColor plainLib (plainLib.toLower "INFO") ∧
    priorityColor plainLib "INFO" = "10" :=
  ⟨(C15_priorityColor_table plainLib asciiLower_idem "INFO").1,
    (C15_priorityColor_table plainLib asciiLower_idem "INFO").2.2.1 (by decide)⟩

/-! ## C16: the end of the input -/

theorem scanLoop_of_none (L : Lib) (lines : List String)
    (h : ∀ l ∈ lines, L.unmarshal l = none) : (scanLoop L lines).1 = none := by
  induction lines with
  | nil => rfl
  | cons line rest ih =>
    unfold scanLoop
    rw [h line (List.mem_cons_self line rest)]
    exact ih (fun l hl => h l (List.mem_cons_of_mem line hl))

/-- C16: for every input in which no line (still to be read) decodes: when the
stream ends cleanly `readLogs` returns `nil`, no event; when the scan stops on an
error other than end of stream it returns one event, the block
`"error reading stdin"`. -/
theorem C16_readLogs_at_end (L : Lib) (lines : List String)
    (h : ∀ l ∈ lines, L.unmarshal l = none) :
    (readLogs L { lines := lines, ending := ScanEnd.eof }).1 = none ∧
    (readLogs L { lines := lines, ending := ScanEnd.err }).1 =
      some (Msg.logMsg "error reading stdin") := by
  have hs := scanLoop_of_none L lines h
  unfold readLogs
  cases hc : scanLoop L lines with
  | mk a rest =>
    rw [hc] at hs
    simp only at hs
    subst hs
    exact ⟨rfl, rfl⟩

/-- C16 witness: two lines that do not decode. -/
theorem C16_readLogs_at_end_witness :
    (∀ l ∈ ["not json", ""], plainLib.unmarshal l = none) ∧
    (readLogs plainLib { lines := ["not json", ""], ending := ScanEnd.eof }).1 = none ∧
    (readLogs plainLib { lines := ["not json", ""], ending := ScanEnd.err }).1 =
      some (Msg.logMsg "error reading stdin") :=
  ⟨fun _ _ => rfl, C16_readLogs_at_end plainLib ["not json", ""] (fun _ _ => rfl)⟩

/-! ## C17: which lines decode -/

theorem decodeString_eq_none_iff (old : String) (v : JSONValue) :
    decodeString old v = none ↔ (∀ s, v ≠ JSONValue.string s) ∧ v ≠ JSONValue.null := by
  cases v <;> simp [decodeString]

theorem numbersOk_false_not_string (floatOk : String → Bool) (v : JSONValue)
    (h : numbersOk floatOk v = false) :
    (∀ s, v ≠ JSONValue.string s) ∧ v ≠ JSONValue.null := by
  cases v <;> simp_all [numbersOk]

theorem decodeField_eq_none_iff (floatOk : String → Bool) (entry : LogEntry)
    (kv : String × JSONValue) :
    decodeField floatOk entry kv = none ↔ badField floatOk kv := by
  have hno := numbersOk_false_not_string floatOk kv.2
  unfold decodeField badField
  cases h1 : keySelects "namespace" kv.1
  · cases h2 : keySelects "time" kv.1
    · cases h3 : keySelects "priority" kv.1
      · cases h4 : keySelects "payload" kv.1
        · simp
        · cases hn : numbersOk floatOk kv.2 <;> simp
      · simp only [Bool.false_eq_true, if_false, if_true, Option.map_eq_none',
          decodeString_eq_none_iff, false_or, true_and]
        exact ⟨fun h => Or.inl h, fun h => h.elim id (fun h => hno h.2)⟩
    · simp only [Bool.false_eq_true, if_false, if_true, Option.map_eq_none',
        decodeString_eq_none_iff, false_or, true_or, true_and]
      exact ⟨fun h => Or.inl h, fun h => h.elim id (fun h => hno h.2)⟩
  · simp only [if_true, Option.map_eq_none', decodeString_eq_none_iff, true_or, true_and]
    exact ⟨fun h => Or.inl h, fun h => h.elim id (fun h => hno h.2)⟩

theorem decodeFields_eq_none_iff (floatOk : String → Bool) (fields : List (String × JSONValue)) :
    ∀ entry : LogEntry,
      decodeFields floatOk fields entry = none ↔ ∃ kv ∈ fields, badField floatOk kv := by
  induction fields with
  | nil => intro entry; simp [decodeFields]
  | cons kv kvs ih =>
    intro entry
    unfold decodeFields
    cases hd : decodeField floatOk entry kv with
    | none =>
      have hb := (decodeField_eq_none_iff floatOk entry kv).mp hd
      simp only [List.mem_cons, true_iff]
      exact ⟨kv, Or.inl rfl, hb⟩
    | some entry1 =>
      have hb : ¬ badField floatOk kv := by
        intro hbad
        rw [(decodeField_eq_none_iff floatOk entry kv).mpr hbad] at hd
        cases hd
      simp only [ih entry1, List.mem_cons]
      constructor
      · rintro ⟨x, hx, hbx⟩
        exact ⟨x, Or.inr hx, hbx⟩
      · rintro ⟨x, hx | hx, hbx⟩
        · subst hx
          exact absurd hbx hb
        · exact ⟨x, hx, hbx⟩

theorem decodeEntry_eq_none_iff (floatOk : String → Bool) (v : JSONValue) :
    decodeEntry floatOk v = none ↔ failsToDecode floatOk v := by
  cases v with
  | object fields =>
    simp only [decodeEntry, failsToDecode]
    exact decodeFields_eq_none_iff floatOk fields LogEntry.zero
  | null => simp [decodeEntry, failsToDecode]
  | bool b => simp [decodeEntry, failsToDecode]
  | number t => simp [decodeEntry, failsToDecode]
  | string s => simp [decodeEntry, failsToDecode]
  | array xs => simp [decodeEntry, failsToDecode]

/-- A member whose key selects none of the four fields leaves the entry as it is;
more precisely each field changes only under a key that selects it. -/
theorem decodeField_keeps (floatOk : String → Bool) (entry entry1 : LogEntry)
    (kv : String × JSONValue) (h : decodeField floatOk entry kv = some entry1) :
    (keySelects "namespace" kv.1 = false → entry1.Namespace = entry.Namespace) ∧
    (keySelects "time" kv.1 = false → entry1.Time = entry.Time) ∧
    (keySelects "priority" kv.1 = false → entry1.Priority = entry.Priority) ∧
    (keySelects "payload" kv.1 = false → entry1.Payload = entry.Payload) := by
  unfold decodeField at h
  cases h1 : keySelects "namespace" kv.1
  · cases h2 : keySelects "time" kv.1
    · cases h3 : keySelects "priority" kv.1
      · cases h4 : keySelects "payload" kv.1
        · simp only [h1, h2, h3, h4, Bool.false_eq_true, if_false, Option.some.injEq] at h
          subst h
          simp
        · simp only [h1, h2, h3, h4, Bool.false_eq_true, if_false, if_true] at h
          split_ifs at h
          cases h
          simp
      · simp only [h1, h2, h3, Bool.false_eq_true, if_false, if_true,
          Option.map_eq_some'] at h
        obtain ⟨s, _, rfl⟩ := h
        simp
    · simp only [h1, h2, Bool.false_eq_true, if_false, if_true, Option.map_eq_some'] at h
      obtain ⟨s, _, rfl⟩ := h
      simp
  · simp only [h1, if_true, Option.map_eq_some'] at h
    obtain ⟨s, _, rfl⟩ := h
    simp

theorem decodeFields_keeps (floatOk : String → Bool) (fields : List (String × JSONValue)) :
    ∀ entry entry1 : LogEntry, decodeFields floatOk fields entry = some entry1 →
      ((∀ kv ∈ fields, keySelects "namespace" kv.1 = false) →
        entry1.Namespace = entry.Namespace) ∧
      ((∀ kv ∈ fields, keySelects "time" kv.1 = false) → entry1.Time = entry.Time) ∧
      ((∀ kv ∈ fields, keySelects "priority" kv.1 = false) →
        entry1.Priority = entry.Priority) ∧
      ((∀ kv ∈ fields, keySelects "payload" kv.1 = false) →
        entry1.Payload = entry.Payload) := by
  induction fields with
  | nil =>
    intro entry entry1 h
    simp only [decodeFields, Option.some.injEq] at h
    subst h
    simp
  | cons kv kvs ih =>
    intro entry entry1 h
    unfold decodeFields at h
    cases hd : decodeField floatOk entry kv with
    | none => rw [hd] at h; cases h
    | some entry2 =>
      rw [hd] at h
      have k1 := decodeField_keeps floatOk entry entry2 kv hd
      have k2 := ih entry2 entry1 h
      refine ⟨?_, ?_, ?_, ?_⟩
      · intro hall
        rw [k2.1 (fun x hx => hall x (List.mem_cons_of_mem kv hx)),
          k1.1 (hall kv (List.mem_cons_self kv kvs))]
      · intro hall
        rw [k2.2.1 (fun x hx => hall x (List.mem_cons_of_mem kv hx)),
          k1.2.1 (hall kv (List.mem_cons_self kv kvs))]
      · intro hall
        rw [k2.2.2.1 (fun x hx => hall x (List.mem_cons_of_mem kv hx)),
          k1.2.2.1 (hall kv (List.mem_cons_self kv kvs))]
      · intro hall
        rw [k2.2.2.2 (fun x hx => hall x (List.mem_cons_of_mem kv hx)),
          k1.2.2.2 (hall kv (List.mem_cons_self kv kvs))]

/-- C17, as stated, fails in both directions: the top-level value `null` is not an
object, yet it decodes (into the zero entry, whose block is then emitted); and the
object with the one member `"namespace": 5` is valid JSON, yet it fails to
decode. -/
theorem C17_null_decodes_and_object_fails :
    decodeEntry (fun _ => true) JSONValue.null = some LogEntry.zero ∧
    formatEntry plainLib LogEntry.zero = " |  | \nnull" ∧
    decodeEntry (fun _ => true)
      (JSONValue.object [("namespace", JSONValue.number "5")]) = none :=
  ⟨rfl, rfl, rfl⟩

/-- C17, amended: decoding a line fails, and the line is discarded without emitting
a block, if and only if the line is malformed JSON, or its top-level value is a
boolean, a number, a string or an array, or it is an object in which a `namespace`,
`time` or `priority` member is neither a string nor `null` or the `payload` member
holds a number that does not fit a `float64`. The line `null` decodes into the zero
entry, every other line that decodes emits its block, and a field absent from the
object keeps its zero value (the empty string, `nil` for the payload). -/
theorem C17_decode_failure (L : Lib) (parse : String → Option JSONValue)
    (floatOk : String → Bool) (line : String) (rest : List String) :
    (unmarshalJSON parse floatOk line = none ↔
      parse line = none ∨ ∃ v, parse line = some v ∧ failsToDecode floatOk v) ∧
    (unmarshalJSON parse floatOk line = none →
      scanLoop { L with unmarshal := unmarshalJSON parse floatOk } (line :: rest) =
        scanLoop { L with unmarshal := unmarshalJSON parse floatOk } rest) ∧
    (∀ entry, unmarshalJSON parse floatOk line = some entry →
      scanLoop { L with unmarshal := unmarshalJSON parse floatOk } (line :: rest) =
        (some (formatEntry { L with unmarshal := unmarshalJSON parse floatOk } entry),
          rest)) ∧
    (parse line = some JSONValue.null →
      unmarshalJSON parse floatOk line = some LogEntry.zero) ∧
    (∀ fields entry, parse line = some (JSONValue.object fields) →
      unmarshalJSON parse floatOk line = some entry →
      ((∀ kv ∈ fields, keySelects "namespace" kv.1 = false) → entry.Namespace = "") ∧
      ((∀ kv ∈ fields, keySelects "time" kv.1 = false) → entry.Time = "") ∧
      ((∀ kv ∈ fields, keySelects "priority" kv.1 = false) → entry.Priority = "") ∧
      ((∀ kv ∈ fields, keySelects "payload" kv.1 = false) →
        entry.Payload = JSONValue.null)) := by
  refine ⟨?_, ?_, ?_, ?_, ?_⟩
  · unfold unmarshalJSON
    cases hp : parse line with
    | none => simp
    | some v => simp [decodeEntry_eq_none_iff]
  · intro h
    conv_lhs => unfold scanLoop
    simp only [h]
  · intro entry h
    conv_lhs => unfold scanLoop
    simp only [h]
  · intro h
    simp [unmarshalJSON, h, decodeEntry]
  · intro fields entry hp h
    simp only [unmarshalJSON, hp, Option.some_bind, decodeEntry] at h
    exact decodeFields_keeps floatOk fields LogEntry.zero entry h

/-- C17 witness: with a value reader that takes the line `null` and the empty
object and nothing else, the line `null` decodes and the next line is not yet
read, and the line `nul` is discarded. -/
theorem C17_decode_failure_witness :
    unmarshalJSON
      (fun l => if l = "null" then some JSONValue.null
        else if l = "{}" then some (JSONValue.object []) else none)
      (fun _ => true) "null" = some LogEntry.zero ∧
    unmarshalJSON
      (fun l => if l = "null" then some JSONValue.null
        else if l = "{}" then some (JSONValue.object []) else none)
      (fun _ => true) "nul" = none :=
  ⟨(C17_decode_failure plainLib _ (fun _ => true) "null" []).2.2.2.1 rfl,
    (C17_decode_failure plainLib
      (fun l => if l = "null" then some JSONValue.null
        else if l = "{}" then some (JSONValue.object []) else none)
      (fun _ => true) "nul" []).1.mpr (Or.inl rfl)⟩

end Luger
